import Mathlib

/-!
Shallow embedding of `daily_krx_volume_spike.py` (KRX volume-spike daily report).

The script's pure logic is translated here definition by definition:
* `tg_send` message chunking (the slicing loop, lines 45-59 of the source);
* `_prev_weekday` / `pick_compare_days` weekday policy (lines 62-91);
* `get_volume_by_market` defensive column lookup and numeric coercion
  (lines 100-115);
* the spike pipeline of `build_report` (lines 174-186): inner merge,
  positive-prior filter, 2-decimal ratio, threshold 5, market-cap left join,
  sort by (cap desc, recent-volume desc), truncation to 30 rows;
* the message rendering of `build_report` (lines 197-245): display-width
  aware alignment, HTML escaping, thousands formatting.

Machine floats of the source are modelled by exact rationals; numpy's
`.round(2)` is modelled by exact round-half-to-even at two decimals.
I/O (HTTP, environment, pykrx calls) is passed in as explicit data.
-/

namespace Daily

/-! ## Telegram chunking (`tg_send`, source lines 45-59) -/

/-- Telegram's hard per-message length limit (source line 17). -/
def TG_MAX : Nat := 4096

/-- The sending loop of `tg_send` for the long case: `while i < len(text):
chunk = text[i:i+TG_MAX]; ...; i += TG_MAX`, collected as the list of chunks
in send order. -/
def tgLoop (text : List Char) : List (List Char) :=
  if _h : text.length = 0 then []
  else text.take TG_MAX :: tgLoop (text.drop TG_MAX)
termination_by text.length
decreasing_by
  simp only [List.length_drop, TG_MAX]
  omega

/-- The chunks `tg_send` posts for a given text: one message when the text
fits in `TG_MAX`, otherwise the consecutive `TG_MAX`-sized slices. -/
def tg_send_chunks (text : List Char) : List (List Char) :=
  if text.length ≤ TG_MAX then [text] else tgLoop text

/-! ## Report rows inside the sent text

The rendered report is a sequence of rows separated by the newline
character.  `lineSpans` records, for each row, its start position and
length inside the whole text; `rowUnbroken` says a row's characters all
land in the same `TG_MAX`-sized chunk (by `tgLoop_getElem` below, the
character at position `p` is sent in chunk `p / TG_MAX`). -/

def lineSpansGo (pos : Nat) : List (List Char) → List (Nat × Nat)
  | [] => []
  | l :: ls => (pos, l.length) :: lineSpansGo (pos + l.length + 1) ls

/-- Start position and length of each newline-separated row of the text. -/
def lineSpans (text : List Char) : List (Nat × Nat) :=
  lineSpansGo 0 (text.splitOn '\n')

/-- A non-empty row with span `(s, l)` is not broken across chunks: its
first and last characters land in the same `TG_MAX`-slice. -/
def rowUnbroken (s l : Nat) : Prop :=
  s / TG_MAX = (s + l - 1) / TG_MAX

instance (s l : Nat) : Decidable (rowUnbroken s l) := by
  unfold rowUnbroken
  infer_instance

/-- A 5000-character report of fifty 100-character rows (99 content
characters and a closing newline each). -/
def fiftyRowsText : List Char :=
  (List.replicate 50 (List.replicate 99 'a' ++ ['\n'])).flatten

/-! ## Weekday comparison-day policy
(`_prev_weekday` and `pick_compare_days`, source lines 62-91)

Calendar dates are modelled as integer day indices with day `0` a Monday,
so that `weekday d = d % 7` matches Python's `date.weekday()`
(Mon = 0 … Sun = 6). -/

/-- Python's `date.weekday()` on the day-index model. -/
def weekday (d : ℤ) : ℤ := d % 7

/-- The `while d.weekday() >= 5: d -= 1` loop of `_prev_weekday`; at most
two consecutive days are weekend days, so fuel 7 always suffices. -/
def skipWeekend : Nat → ℤ → ℤ
  | 0, d => d
  | f + 1, d => if 5 ≤ weekday d then skipWeekend f (d - 1) else d

/-- `_prev_weekday`: step one day back, then skip over Saturday/Sunday. -/
def prev_weekday (d : ℤ) : ℤ := skipWeekend 7 (d - 1)

/-- `pick_compare_days`: the weekday-shortcut policy.  Weekend reference →
no pair; Monday → (Friday, Thursday); Tuesday → (Monday, Friday);
Wednesday–Friday → the two preceding weekdays.  `none` models the
source's `(None, None)`. -/
def pick_compare_days (now : ℤ) : Option (ℤ × ℤ) :=
  let wd := weekday now
  if 5 ≤ wd then none
  else if wd = 0 then some (now - 3, now - 4)
  else if wd = 1 then some (now - 1, now - 4)
  else some (prev_weekday now, prev_weekday (prev_weekday now))

/-- Modelled from the claim's words, for comparison with the source's
`pick_compare_days`: Monday yields the preceding Friday and Thursday,
Tuesday yields the preceding Monday and Friday, Wednesday–Friday yield
reference minus 1 and minus 2 days, weekends yield nothing. -/
def pick_compare_days_spec (now : ℤ) : Option (ℤ × ℤ) :=
  if weekday now = 0 then some (now - 3, now - 4)
  else if weekday now = 1 then some (now - 1, now - 4)
  else if weekday now ≤ 4 then some (now - 1, now - 2)
  else none

/-! ## Volume snapshot fetching (`get_volume_by_market`, source lines 100-115)

A source response is a table: a list of data column names, and one row per
instrument carrying the ticker plus the cells aligned with the columns.
A cell holds `some q` when its content parses as the number `q` (what
`pd.to_numeric(..., errors="coerce")` keeps) and `none` when it is missing
or unparsable (what `to_numeric` coerces to NaN and `dropna` removes). -/

structure RawTable where
  cols : List String
  rows : List (String × List (Option ℚ))

/-- The defensive volume-column lookup of line 106: the canonical name
`거래량` if present, otherwise the first column whose name contains the
character `량`. -/
def findVolCol (cols : List String) : Option String :=
  if "거래량" ∈ cols then some "거래량"
  else cols.find? fun c => c.data.contains '량'

/-- Index of the chosen volume column among the data columns. -/
def volIdx (cols : List String) (vc : String) : Nat :=
  cols.findIdx fun c => c == vc

/-- Truncation toward zero: numpy's float→int64 `astype` conversion.
`Int.tdiv` of the numerator by the denominator is exactly
rounding-toward-zero of the rational. -/
def ratTrunc (q : ℚ) : ℤ := Int.tdiv q.num (q.den : ℤ)

/-- `get_volume_by_market` on a raw response: empty input or no
identifiable volume column give an empty snapshot; otherwise each row
whose volume cell parses contributes its ticker with the value cast to
int64, and rows with unparsable cells are dropped. -/
def get_volume_by_market (tbl : RawTable) : List (String × ℤ) :=
  if tbl.rows.length = 0 then []
  else
    match findVolCol tbl.cols with
    | none => []
    | some vc =>
      tbl.rows.filterMap fun r =>
        (r.2.getD (volIdx tbl.cols vc) none).map fun q => (r.1, ratTrunc q)

/-! ## Spike detection (`build_report` lines 174-186)

Snapshots are association lists ticker → volume, matching the merged
KOSPI+KOSDAQ frames; `pd.merge` on the ticker key is the flat inner join
below (one output row per matching pair, in left order). -/

structure Joined where
  ticker : String
  vol1 : ℤ
  vol0 : ℤ
deriving DecidableEq

structure SpikeRow where
  ticker : String
  vol1 : ℤ
  vol0 : ℤ
  mult : ℚ
deriving DecidableEq

/-- Round half to even at integer precision (numpy's rounding mode),
computed on the numerator and denominator: with `f = ⌊q⌋` the fractional
part `q - f` equals `(n - f*d) / d`, so comparing it against `1/2` is
comparing `2*(n - f*d)` against `d`.  `roundHalfEven_spec` below restates
this definition in terms of `⌊q⌋` and the fractional part. -/
def roundHalfEven (q : ℚ) : ℤ :=
  let n := q.num
  let d := (q.den : ℤ)
  let f := Int.fdiv n d
  if 2 * (n - f * d) < d then f
  else if d < 2 * (n - f * d) then f + 1
  else if f % 2 = 0 then f else f + 1

/-- numpy's `.round(2)`: round half to even at two decimal places.
`q * 100` is the rational `(q.num * 100) / q.den`. -/
def round2 (q : ℚ) : ℚ :=
  Rat.divInt (roundHalfEven (Rat.divInt (q.num * 100) (q.den : ℤ))) 100

/-- `pd.merge(vol1, vol0, on="티커", how="inner")` (line 174). -/
def mergedRows (vol1 vol0 : List (String × ℤ)) : List Joined :=
  vol1.flatMap fun r =>
    (vol0.filter fun s => s.1 == r.1).map fun s => ⟨r.1, r.2, s.2⟩

/-- `merged = merged[merged["거래량_전전일"] > 0]` (line 178). -/
def posPrior (rows : List Joined) : List Joined :=
  rows.filter fun r => decide (0 < r.vol0)

/-- `merged["배수"] = (전일 / 전전일).round(2)` (line 179); `Rat.divInt` is
the division of the two integer volumes as a rational. -/
def withMult (rows : List Joined) : List SpikeRow :=
  rows.map fun r => ⟨r.ticker, r.vol1, r.vol0, round2 (Rat.divInt r.vol1 r.vol0)⟩

/-- `result = merged[merged["배수"] >= 5]` (line 180): the filtered spike
records, before the market-cap join and truncation. -/
def result5x (vol1 vol0 : List (String × ℤ)) : List SpikeRow :=
  (withMult (posPrior (mergedRows vol1 vol0))).filter fun r => decide (5 ≤ r.mult)

/-- `pd.merge(result, mcap, how="left")` followed by `fillna(0)` on the cap
(lines 183-184): every spike row is kept; rows with no cap entry get cap 0,
rows with cap entries get one output row per entry. -/
def withCap (rows : List SpikeRow) (mcap : List (String × ℚ)) : List (SpikeRow × ℚ) :=
  rows.flatMap fun r =>
    match mcap.filter (fun m => m.1 == r.ticker) with
    | [] => [(r, 0)]
    | ms => ms.map fun m => (r, m.2)

/-- The sort key of line 185: market cap descending, then recent volume
descending. -/
def capLe (a b : SpikeRow × ℚ) : Prop :=
  b.2 < a.2 ∨ (a.2 = b.2 ∧ b.1.vol1 ≤ a.1.vol1)

instance : DecidableRel capLe := by
  unfold capLe
  infer_instance

instance : IsTotal (SpikeRow × ℚ) capLe where
  total a b := by
    unfold capLe
    rcases lt_trichotomy a.2 b.2 with h | h | h
    · exact Or.inr (Or.inl h)
    · rcases le_total b.1.vol1 a.1.vol1 with hv | hv
      · exact Or.inl (Or.inr ⟨h, hv⟩)
      · exact Or.inr (Or.inr ⟨h.symm, hv⟩)
    · exact Or.inl (Or.inl h)

instance : IsTrans (SpikeRow × ℚ) capLe where
  trans a b c hab hbc := by
    unfold capLe at *
    rcases hab with h1 | ⟨e1, v1⟩
    · rcases hbc with h2 | ⟨e2, _⟩
      · exact Or.inl (h2.trans h1)
      · exact Or.inl (e2 ▸ h1)
    · rcases hbc with h2 | ⟨e2, v2⟩
      · exact Or.inl (e1 ▸ h2)
      · exact Or.inr ⟨e1.trans e2, v2.trans v1⟩

/-- `result.sort_values(by=["시가총액", "거래량_전일"], ascending=[False,
False])` (line 185): a comparison sort on the two-part descending key.
The source's (unstable) quicksort fixes no tie order; insertion sort is
used as the executable model. -/
def sortedResult (vol1 vol0 : List (String × ℤ)) (mcap : List (String × ℚ)) :
    List (SpikeRow × ℚ) :=
  (withCap (result5x vol1 vol0) mcap).insertionSort capLe

/-- `result.head(30)` (line 186): the rows the report renders. -/
def reportRows (vol1 vol0 : List (String × ℤ)) (mcap : List (String × ℚ)) :
    List (SpikeRow × ℚ) :=
  (sortedResult vol1 vol0 mcap).take 30

/-! ## Report rendering (`build_report` lines 140-151 and 197-245) -/

/-- The East-Asian-width table consulted by
`unicodedata.east_asian_width`: code-point ranges whose property value is
Wide (`W`) or Fullwidth (`F`). -/
def eawRanges : List (Nat × Nat) :=
  [(0x1100, 0x115F), (0x231A, 0x231B), (0x2329, 0x232A), (0x23E9, 0x23EC),
   (0x23F0, 0x23F0), (0x23F3, 0x23F3), (0x25FD, 0x25FE), (0x2614, 0x2615),
   (0x2648, 0x2653), (0x267F, 0x267F), (0x2693, 0x2693), (0x26A1, 0x26A1),
   (0x26AA, 0x26AB), (0x26BD, 0x26BE), (0x26C4, 0x26C5), (0x26CE, 0x26CE),
   (0x26D4, 0x26D4), (0x26EA, 0x26EA), (0x26F2, 0x26F3), (0x26F5, 0x26F5),
   (0x26FA, 0x26FA), (0x26FD, 0x26FD), (0x2705, 0x2705), (0x270A, 0x270B),
   (0x2728, 0x2728), (0x274C, 0x274C), (0x274E, 0x274E), (0x2753, 0x2755),
   (0x2757, 0x2757), (0x2795, 0x2797), (0x27B0, 0x27B0), (0x27BF, 0x27BF),
   (0x2B1B, 0x2B1C), (0x2B50, 0x2B50), (0x2B55, 0x2B55), (0x2E80, 0x2E99),
   (0x2E9B, 0x2EF3), (0x2F00, 0x2FD5), (0x2FF0, 0x2FFB), (0x3000, 0x303E),
   (0x3041, 0x3096), (0x3099, 0x30FF), (0x3105, 0x312F), (0x3131, 0x318E),
   (0x3190, 0x31E3), (0x31F0, 0x321E), (0x3220, 0x3247), (0x3250, 0x4DBF),
   (0x4E00, 0xA48C), (0xA490, 0xA4C6), (0xA960, 0xA97C), (0xAC00, 0xD7A3),
   (0xF900, 0xFAFF), (0xFE10, 0xFE19), (0xFE30, 0xFE52), (0xFE54, 0xFE66),
   (0xFE68, 0xFE6B), (0xFF00, 0xFF60), (0xFFE0, 0xFFE6),
   (0x16FE0, 0x16FE4), (0x17000, 0x187F7), (0x18800, 0x18CD5),
   (0x1B000, 0x1B152), (0x1B164, 0x1B167), (0x1B170, 0x1B2FB),
   (0x1F004, 0x1F004), (0x1F0CF, 0x1F0CF), (0x1F18E, 0x1F18E),
   (0x1F191, 0x1F19A), (0x1F200, 0x1F202), (0x1F210, 0x1F23B),
   (0x1F240, 0x1F248), (0x1F250, 0x1F251), (0x1F260, 0x1F265),
   (0x1F300, 0x1F320), (0x1F32D, 0x1F335), (0x1F337, 0x1F37C),
   (0x1F37E, 0x1F393), (0x1F3A0, 0x1F3CA), (0x1F3CF, 0x1F3D3),
   (0x1F3E0, 0x1F3F0), (0x1F3F4, 0x1F3F4), (0x1F3F8, 0x1F43E),
   (0x1F440, 0x1F440), (0x1F442, 0x1F4FC), (0x1F4FF, 0x1F53D),
   (0x1F54B, 0x1F54E), (0x1F550, 0x1F567), (0x1F57A, 0x1F57A),
   (0x1F595, 0x1F596), (0x1F5A4, 0x1F5A4), (0x1F5FB, 0x1F64F),
   (0x1F680, 0x1F6C5), (0x1F6CC, 0x1F6CC), (0x1F6D0, 0x1F6D2),
   (0x1F6D5, 0x1F6D7), (0x1F6DC, 0x1F6DF), (0x1F6EB, 0x1F6EC),
   (0x1F6F4, 0x1F6FC), (0x1F7E0, 0x1F7EB), (0x1F7F0, 0x1F7F0),
   (0x1F90C, 0x1F93A), (0x1F93C, 0x1F945), (0x1F947, 0x1F9FF),
   (0x1FA70, 0x1FA7C), (0x1FA80, 0x1FA88), (0x1FA90, 0x1FABD),
   (0x1FABF, 0x1FAC5), (0x1FACE, 0x1FADB), (0x1FAE0, 0x1FAE8),
   (0x1FAF0, 0x1FAF8), (0x20000, 0x2FFFD), (0x30000, 0x3FFFD)]

/-- `unicodedata.east_asian_width(ch) in ("W", "F")` (source line 146). -/
def east_asian_wide (c : Char) : Bool :=
  eawRanges.any fun p => decide (p.1 ≤ c.toNat) && decide (c.toNat ≤ p.2)

/-- Display width of one character: 2 for Wide/Fullwidth, else 1. -/
def charWidth (c : Char) : Nat := if east_asian_wide c then 2 else 1

/-- `disp_width` (source lines 142-147): display width of a string. -/
def disp_width (s : String) : Nat := (s.data.map charWidth).sum

/-- `ljust_display` (source lines 149-151).  `max(0, width - disp_width s)`
is truncated natural subtraction here. -/
def ljust_display (s : String) (width : Nat) : String :=
  s ++ String.mk (List.replicate (width - disp_width s) ' ')

/-- Escape of one character under Python's `html.escape` (with its default
quoting of `"` and the apostrophe). -/
def escChar (c : Char) : List Char :=
  if c = '&' then "&amp;".data
  else if c = '<' then "&lt;".data
  else if c = '>' then "&gt;".data
  else if c = '"' then "&quot;".data
  else if c = Char.ofNat 39 then "&#x27;".data
  else [c]

/-- Python's `html.escape`. -/
def htmlEscape (s : String) : String := String.mk (s.data.flatMap escChar)

/-- Group a reversed digit list in threes with comma separators. -/
def group3r : List Char → List Char
  | [] => []
  | [a] => [a]
  | [a, b] => [a, b]
  | [a, b, c] => [a, b, c]
  | a :: b :: c :: rest => a :: b :: c :: ',' :: group3r rest

/-- Decimal digits of `n`, least significant first; the first argument is
fuel (`n` itself always suffices since `n / 10 < n` for positive `n`). -/
def natDigitsRevGo : Nat → Nat → List Char
  | 0, _ => []
  | _ + 1, 0 => []
  | fuel + 1, n + 1 =>
    Char.ofNat (48 + (n + 1) % 10) :: natDigitsRevGo fuel ((n + 1) / 10)

/-- Decimal digits of `n`, least significant first (`['0']` for zero). -/
def natDigitsRev (n : Nat) : List Char :=
  if n = 0 then ['0'] else natDigitsRevGo n n

/-- Python's `f"{n:,}"` thousands-separated integer formatting. -/
def fmtThousands (n : ℤ) : String :=
  (if n < 0 then "-" else "") ++
    String.mk ((group3r (natDigitsRev n.natAbs)).reverse)

/-- The rank field `f"{i})"` left-justified to 3 characters plus the
following space (source lines 236-237). -/
def numField (i : Nat) : String :=
  let num := toString i ++ ")"
  num ++ String.mk (List.replicate (3 - num.length) ' ') ++ " "

/-- `lead_spaces = " " * (num_field_width + 1)` (line 211). -/
def lead_spaces : String := String.mk (List.replicate 4 ' ')

def label_name : String := "종목명"

def label_vol : String := "전일거래량"

/-- `gap_between = 2` (line 213). -/
def gap_between : Nat := 2

/-- `name_width = max(2, max(disp_width(s) for s in names))` (line 212). -/
def nameWidth (names : List String) : Nat :=
  max 2 ((names.map disp_width).foldr max 0)

/-- The right-alignment anchor of line 227: lead + name column + gap +
width of the volume label. -/
def vol_anchor (names : List String) : Nat :=
  disp_width lead_spaces + nameWidth names + gap_between + disp_width label_vol

/-- The label line of lines 220-230: `lead_spaces + 종목명`, padded so the
volume label ends at the anchor.  The `max(0, ...)` of line 229 is the
truncation of natural subtraction. -/
def labelLine (names : List String) : String :=
  let ll := lead_spaces ++ label_name
  ll ++ String.mk (List.replicate
      (vol_anchor names - disp_width ll - disp_width label_vol) ' ') ++ label_vol

/-- A data line (lines 235-242): rank field, display-padded name, gap, then
the volume string right-aligned so its last character sits at the anchor
column (`rem = max(0, vol_anchor - disp_width(base) - len(vv))`). -/
def dataLine (anchor nw : Nat) (i : Nat) (nm vv : String) : String :=
  let base := numField i ++ ljust_display nm nw ++
    String.mk (List.replicate gap_between ' ')
  base ++ String.mk (List.replicate (anchor - disp_width base - vv.length) ' ') ++ vv

/-- `f"<code>{html.escape(line)}</code>"`. -/
def codeWrap (s : String) : String := "<code>" ++ htmlEscape s ++ "</code>"

/-- The message header (lines 198-202), parameterized by the two formatted
comparison dates. -/
def headerStr (d1s d0s : String) : String :=
  "<b>[거래량 급증(≥5배) – 시총 상위 30개]</b>\n기준일: " ++ d1s ++ " vs " ++ d0s ++
    "\n(월=금↔목, 화=월↔금; 주말 미전송)\n"

/-- The `<code>`-wrapped data lines, one per (name, volume) pair, ranks
starting at 1 (line 235). -/
def dataLineList (anchor nw : Nat) (names vols : List String) : List String :=
  (List.zip names vols).enum.map fun p =>
    codeWrap (dataLine anchor nw (p.1 + 1) p.2.1 p.2.2)

/-- The message-forming part of `build_report` (lines 197-245), as a
function of the final (sorted, truncated) row list: the header plus the
`해당 없음.` no-match line when the list is empty, otherwise the header,
the label line and one aligned data line per row. -/
def buildMsgRows (d1s d0s : String) (result : List (SpikeRow × ℚ))
    (nameOf : String → String) : String :=
  if result.length = 0 then headerStr d1s d0s ++ "\n해당 없음."
  else
    let names := result.map fun r => nameOf r.1.ticker
    let vols := result.map fun r => fmtThousands r.1.vol1
    headerStr d1s d0s ++ "\n" ++
      String.intercalate "\n"
        (codeWrap (labelLine names) ::
          dataLineList (vol_anchor names) (nameWidth names) names vols)

/-- The pure core of `build_report` after the comparison dates and the
snapshots have been fetched: the rendered message.  `nameOf` is the
resolved ticker → display-name map (`name_map`, empty string on lookup
failure). -/
def buildMsg (d1s d0s : String) (vol1 vol0 : List (String × ℤ))
    (mcap : List (String × ℚ)) (nameOf : String → String) : String :=
  buildMsgRows d1s d0s (reportRows vol1 vol0 mcap) nameOf

/-- `build_report` including the weekend guard (lines 156-158): `none`
models the `return None` weekend skip.  `fmtDate` stands for
`yyyy_mm_dd`; the fetched snapshots are passed as functions of the two
resolved dates. -/
def build_report (now : ℤ) (fmtDate : ℤ → String)
    (vol : ℤ → List (String × ℤ)) (mcapOf : ℤ → List (String × ℚ))
    (nameOf : String → String) : Option String :=
  match pick_compare_days now with
  | none => none
  | some (d1, d0) =>
    some (buildMsg (fmtDate d1) (fmtDate d0) (vol d1) (vol d0) (mcapOf d1) nameOf)

/-! ## Concrete data used by counterexamples and witnesses -/

/-- Ticker names `T0`, `T1`, … used in concrete scenarios. -/
def tick (k : Nat) : String := "T" ++ toString k

/-- 31 tickers whose volume rose from 100 to 1000 (ratio 10). -/
def vol1A : List (String × ℤ) := (List.range 31).map fun k => (tick k, 1000)

def vol0A : List (String × ℤ) := (List.range 31).map fun k => (tick k, 100)

def mcapA : List (String × ℚ) :=
  (List.range 31).map fun k => (tick k, ((1000 - k : ℤ) : ℚ))

/-- The same scenario restricted to the 30 tickers that survive
truncation. -/
def vol1B : List (String × ℤ) := (List.range 30).map fun k => (tick k, 1000)

def vol0B : List (String × ℤ) := (List.range 30).map fun k => (tick k, 100)

def mcapB : List (String × ℚ) :=
  (List.range 30).map fun k => (tick k, ((1000 - k : ℤ) : ℚ))

/-! ## Chunking lemmas -/

theorem tgLoop_nil : tgLoop [] = [] := by
  rw [tgLoop.eq_def]
  simp

theorem tgLoop_pos (text : List Char) (h : text.length ≠ 0) :
    tgLoop text = text.take TG_MAX :: tgLoop (text.drop TG_MAX) := by
  rw [tgLoop.eq_def]
  simp [h]

theorem tgLoop_flatten_aux (n : Nat) :
    ∀ text : List Char, text.length ≤ n → (tgLoop text).flatten = text := by
  induction n with
  | zero =>
    intro text ht
    have : text = [] := List.length_eq_zero.mp (Nat.le_zero.mp ht)
    subst this
    simp [tgLoop_nil]
  | succ n ih =>
    intro text ht
    by_cases h : text.length = 0
    · have : text = [] := List.length_eq_zero.mp h
      subst this
      simp [tgLoop_nil]
    · rw [tgLoop_pos text h]
      have hdrop : (text.drop TG_MAX).length ≤ n := by
        simp only [List.length_drop, TG_MAX]
        omega
      simp [ih _ hdrop]

/-- Concatenating the loop's chunks restores the text. -/
theorem tgLoop_flatten (text : List Char) : (tgLoop text).flatten = text :=
  tgLoop_flatten_aux text.length text le_rfl

theorem tgLoop_chunk_bounds_aux (n : Nat) :
    ∀ text : List Char, text.length ≤ n →
      ∀ c ∈ tgLoop text, c ≠ [] ∧ c.length ≤ TG_MAX := by
  induction n with
  | zero =>
    intro text ht
    have : text = [] := List.length_eq_zero.mp (Nat.le_zero.mp ht)
    subst this
    simp [tgLoop_nil]
  | succ n ih =>
    intro text ht c hc
    by_cases h : text.length = 0
    · have : text = [] := List.length_eq_zero.mp h
      subst this
      rw [tgLoop_nil] at hc
      simp at hc
    · rw [tgLoop_pos text h] at hc
      rcases List.mem_cons.mp hc with rfl | hc
      · refine ⟨fun hnil => h ?_, by simp⟩
        have := congrArg List.length hnil
        simp only [List.length_take, List.length_nil] at this
        have h4 : (0:Nat) < TG_MAX := by simp [TG_MAX]
        omega
      · have hdrop : (text.drop TG_MAX).length ≤ n := by
          simp only [List.length_drop, TG_MAX]
          omega
        exact ih _ hdrop c hc

/-- Every chunk the loop produces is non-empty and at most `TG_MAX` long. -/
theorem tgLoop_chunk_bounds (text : List Char) :
    ∀ c ∈ tgLoop text, c ≠ [] ∧ c.length ≤ TG_MAX :=
  tgLoop_chunk_bounds_aux text.length text le_rfl

theorem tgLoop_getElem_aux (n : Nat) :
    ∀ text : List Char, text.length ≤ n →
      ∀ k : Nat, k < (tgLoop text).length →
        (tgLoop text)[k]? = some ((text.drop (TG_MAX * k)).take TG_MAX) := by
  induction n with
  | zero =>
    intro text ht k hk
    have : text = [] := List.length_eq_zero.mp (Nat.le_zero.mp ht)
    subst this
    rw [tgLoop_nil] at hk
    simp at hk
  | succ n ih =>
    intro text ht k hk
    by_cases h : text.length = 0
    · have : text = [] := List.length_eq_zero.mp h
      subst this
      rw [tgLoop_nil] at hk
      simp at hk
    · have hdrop : (text.drop TG_MAX).length ≤ n := by
        simp only [List.length_drop, TG_MAX]
        omega
      rw [tgLoop_pos text h] at hk ⊢
      match k with
      | 0 => simp
      | k + 1 =>
        have hk' : k < (tgLoop (text.drop TG_MAX)).length := by
          simpa using hk
        rw [List.getElem?_cons_succ, ih _ hdrop k hk', List.drop_drop]
        congr 3
        ring

/-- The `k`-th chunk of the loop is exactly the slice
`text[TG_MAX*k : TG_MAX*k + TG_MAX]`. -/
theorem tgLoop_getElem (text : List Char) (k : Nat) (hk : k < (tgLoop text).length) :
    (tgLoop text)[k]? = some ((text.drop (TG_MAX * k)).take TG_MAX) :=
  tgLoop_getElem_aux text.length text le_rfl k hk

/-- Number of chunks the loop produces is two when the length lies in
`(TG_MAX, 2*TG_MAX]`. -/
theorem tgLoop_length_two (text : List Char)
    (h1 : TG_MAX < text.length) (h2 : text.length ≤ 2 * TG_MAX) :
    (tgLoop text).length = 2 := by
  rw [tgLoop_pos text (by omega)]
  rw [tgLoop_pos (text.drop TG_MAX) (by simp only [List.length_drop]; omega)]
  have hnil : (text.drop TG_MAX).drop TG_MAX = [] := by
    apply List.drop_eq_nil_of_le
    simp only [List.length_drop]
    omega
  rw [hnil, tgLoop_nil]
  rfl

/-! ## Weekday lemmas -/

theorem weekday_range (d : ℤ) : 0 ≤ weekday d ∧ weekday d < 7 := by
  unfold weekday
  omega

/-- On a Tuesday–Friday reference, `_prev_weekday` is just the previous
calendar day (which is then a Monday–Thursday weekday). -/
theorem prev_weekday_midweek (d : ℤ) (h1 : 1 ≤ weekday d) (h4 : weekday d ≤ 4) :
    prev_weekday d = d - 1 := by
  have hw : weekday (d - 1) = weekday d - 1 := by
    unfold weekday at *
    omega
  unfold prev_weekday skipWeekend
  rw [hw]
  simp only [if_neg (by omega : ¬ (5 ≤ weekday d - 1))]

/-- C2: under the weekday-shortcut policy, a Monday reference yields the
preceding week's (Friday, Thursday), a Tuesday reference yields
(Monday, Friday), Wednesday–Friday references yield the two immediately
preceding weekdays (minus 1 and minus 2 days), and a weekend reference
yields no pair rather than an error: `pick_compare_days` agrees with the
claim-derived `pick_compare_days_spec` everywhere, and the returned days
have the stated weekday meanings. -/
theorem claim_C2_weekday_policy (d : ℤ) :
    pick_compare_days d = pick_compare_days_spec d ∧
    (weekday d = 0 → pick_compare_days d = some (d - 3, d - 4) ∧
      weekday (d - 3) = 4 ∧ weekday (d - 4) = 3) ∧
    (weekday d = 1 → pick_compare_days d = some (d - 1, d - 4) ∧
      weekday (d - 1) = 0 ∧ weekday (d - 4) = 4) ∧
    (2 ≤ weekday d → weekday d ≤ 4 → pick_compare_days d = some (d - 1, d - 2) ∧
      weekday (d - 1) = weekday d - 1 ∧ weekday (d - 2) = weekday d - 2) ∧
    (5 ≤ weekday d → pick_compare_days d = none) := by
  have hr := weekday_range d
  have heq : pick_compare_days d = pick_compare_days_spec d := by
    unfold pick_compare_days pick_compare_days_spec
    by_cases h5 : 5 ≤ weekday d
    · rw [if_pos h5, if_neg (by omega), if_neg (by omega), if_neg (by omega)]
    · rw [if_neg h5]
      by_cases h0 : weekday d = 0
      · rw [if_pos h0, if_pos h0]
      · rw [if_neg h0, if_neg h0]
        by_cases h1 : weekday d = 1
        · rw [if_pos h1, if_pos h1]
        · rw [if_neg h1, if_neg h1, if_pos (by omega)]
          have hp1 : prev_weekday d = d - 1 :=
            prev_weekday_midweek d (by omega) (by omega)
          have hw1 : weekday (d - 1) = weekday d - 1 := by
            unfold weekday at *
            omega
          have hp2 : prev_weekday (d - 1) = d - 1 - 1 :=
            prev_weekday_midweek (d - 1) (by omega) (by omega)
          rw [hp1, hp2]
          congr 2
          omega
  refine ⟨heq, ?_, ?_, ?_, ?_⟩
  · intro h0
    refine ⟨?_, by unfold weekday at *; omega, by unfold weekday at *; omega⟩
    rw [heq]
    unfold pick_compare_days_spec
    rw [if_pos h0]
  · intro h1
    refine ⟨?_, by unfold weekday at *; omega, by unfold weekday at *; omega⟩
    rw [heq]
    unfold pick_compare_days_spec
    rw [if_neg (by omega), if_pos h1]
  · intro h2 h4
    refine ⟨?_, by unfold weekday at *; omega, by unfold weekday at *; omega⟩
    rw [heq]
    unfold pick_compare_days_spec
    rw [if_neg (by omega), if_neg (by omega), if_pos (by omega)]
  · intro h5
    rw [heq]
    unfold pick_compare_days_spec
    rw [if_neg (by omega), if_neg (by omega), if_neg (by omega)]

/-- Witness for C2 at concrete days: day 7 is a Monday and yields
(day 4 = Friday, day 3 = Thursday); day 12 is a Saturday and yields no
pair. -/
theorem claim_C2_weekday_policy_witness :
    (pick_compare_days 7 = some (4, 3) ∧ weekday 4 = 4 ∧ weekday 3 = 3) ∧
    pick_compare_days 12 = none :=
  ⟨by
    have h := (claim_C2_weekday_policy 7).2.1 (by decide)
    simpa using h,
   (claim_C2_weekday_policy 12).2.2.2.2 (by decide)⟩

/-! ## Rounding characterization -/

theorem rat_num_eq (q : ℚ) : (q.num : ℚ) = q * (q.den : ℚ) := by
  have hd : ((q.den : ℚ)) ≠ 0 := by positivity
  calc (q.num : ℚ) = (q.num : ℚ) / (q.den : ℚ) * (q.den : ℚ) := by
        rw [div_mul_cancel₀ _ hd]
    _ = q * (q.den : ℚ) := by rw [Rat.num_div_den q]

theorem rat_fdiv_floor (q : ℚ) : Int.fdiv q.num (q.den : ℤ) = ⌊q⌋ := by
  rw [Int.fdiv_eq_ediv _ (by positivity)]
  exact Rat.floor_def.symm

theorem rat_sub_floor_div (q : ℚ) (f : ℤ) :
    q - (f : ℚ) = ((q.num - f * q.den : ℤ) : ℚ) / (q.den : ℚ) := by
  have hd : ((q.den : ℚ)) ≠ 0 := by positivity
  rw [eq_div_iff hd]
  push_cast
  rw [rat_num_eq q]
  ring

theorem half_lt_iff (q : ℚ) (a : ℤ) :
    ((a : ℚ) / (q.den : ℚ) < 1 / 2) ↔ 2 * a < (q.den : ℤ) := by
  have hd : (0 : ℚ) < (q.den : ℚ) := by positivity
  rw [div_lt_div_iff₀ hd (by norm_num : (0:ℚ) < 2)]
  constructor
  · intro h
    have : ((2 * a : ℤ) : ℚ) < ((q.den : ℤ) : ℚ) := by push_cast; linarith
    exact_mod_cast this
  · intro h
    have : ((2 * a : ℤ) : ℚ) < ((q.den : ℤ) : ℚ) := by exact_mod_cast h
    push_cast at this
    linarith

theorem lt_half_iff (q : ℚ) (a : ℤ) :
    ((1 : ℚ) / 2 < (a : ℚ) / (q.den : ℚ)) ↔ (q.den : ℤ) < 2 * a := by
  have hd : (0 : ℚ) < (q.den : ℚ) := by positivity
  rw [div_lt_div_iff₀ (by norm_num : (0:ℚ) < 2) hd]
  constructor
  · intro h
    have : ((q.den : ℤ) : ℚ) < ((2 * a : ℤ) : ℚ) := by push_cast; linarith
    exact_mod_cast this
  · intro h
    have : ((q.den : ℤ) : ℚ) < ((2 * a : ℤ) : ℚ) := by exact_mod_cast h
    push_cast at this
    linarith

/-- The integer-arithmetic `roundHalfEven` is round half to even: the
floor when the fractional part is below one half, the ceiling when above,
and the even neighbour on an exact half. -/
theorem roundHalfEven_spec (q : ℚ) :
    roundHalfEven q =
      if q - (⌊q⌋ : ℚ) < 1 / 2 then ⌊q⌋
      else if (1 : ℚ) / 2 < q - (⌊q⌋ : ℚ) then ⌊q⌋ + 1
      else if ⌊q⌋ % 2 = 0 then ⌊q⌋ else ⌊q⌋ + 1 := by
  show (if 2 * (q.num - Int.fdiv q.num (q.den : ℤ) * (q.den : ℤ)) < (q.den : ℤ) then
      Int.fdiv q.num (q.den : ℤ)
    else if (q.den : ℤ) < 2 * (q.num - Int.fdiv q.num (q.den : ℤ) * (q.den : ℤ)) then
      Int.fdiv q.num (q.den : ℤ) + 1
    else if Int.fdiv q.num (q.den : ℤ) % 2 = 0 then Int.fdiv q.num (q.den : ℤ)
    else Int.fdiv q.num (q.den : ℤ) + 1) = _
  rw [rat_fdiv_floor q, rat_sub_floor_div q ⌊q⌋]
  simp only [half_lt_iff q, lt_half_iff q]

/-- `round2 q` is `roundHalfEven (q * 100) / 100` with exact rational
division: the integer-built rational `divInt (q.num * 100) q.den` is
`q * 100`. -/
theorem round2_spec (q : ℚ) :
    round2 q = (roundHalfEven (Rat.divInt (q.num * 100) (q.den : ℤ)) : ℚ) / 100 ∧
    Rat.divInt (q.num * 100) (q.den : ℤ) = q * 100 := by
  have hd : ((q.den : ℚ)) ≠ 0 := by positivity
  constructor
  · unfold round2
    rw [Rat.divInt_eq_div]
    norm_num
  · rw [Rat.divInt_eq_div]
    push_cast
    rw [div_eq_iff hd, rat_num_eq q]
    ring

/-! ## Detection pipeline lemmas -/

theorem mem_mergedRows (vol1 vol0 : List (String × ℤ)) (j : Joined) :
    j ∈ mergedRows vol1 vol0 ↔
      (j.ticker, j.vol1) ∈ vol1 ∧ (j.ticker, j.vol0) ∈ vol0 := by
  unfold mergedRows
  rw [List.mem_flatMap]
  constructor
  · rintro ⟨r, hr, hj⟩
    rw [List.mem_map] at hj
    obtain ⟨s, hs, rfl⟩ := hj
    rw [List.mem_filter] at hs
    have : s.1 = r.1 := by simpa using hs.2
    refine ⟨by simpa using hr, ?_⟩
    have : (s.1, s.2) = s := rfl
    simpa [this.symm ▸ hs.1] using (by rw [‹s.1 = r.1›] at this; exact this ▸ hs.1 : (r.1, s.2) ∈ vol0)
  · rintro ⟨h1, h2⟩
    refine ⟨(j.ticker, j.vol1), h1, ?_⟩
    rw [List.mem_map]
    refine ⟨(j.ticker, j.vol0), ?_, rfl⟩
    rw [List.mem_filter]
    exact ⟨h2, by simp⟩

theorem mem_result5x (vol1 vol0 : List (String × ℤ)) (r : SpikeRow) :
    r ∈ result5x vol1 vol0 ↔
      (r.ticker, r.vol1) ∈ vol1 ∧ (r.ticker, r.vol0) ∈ vol0 ∧ 0 < r.vol0 ∧
      r.mult = round2 (Rat.divInt r.vol1 r.vol0) ∧ 5 ≤ r.mult := by
  unfold result5x withMult posPrior
  rw [List.mem_filter, List.mem_map]
  constructor
  · rintro ⟨⟨j, hj, rfl⟩, hge⟩
    rw [List.mem_filter] at hj
    have hm := (mem_mergedRows vol1 vol0 j).mp hj.1
    refine ⟨hm.1, hm.2, by simpa using hj.2, rfl, by simpa using hge⟩
  · rintro ⟨h1, h2, h0, hmult, hge⟩
    refine ⟨⟨⟨r.ticker, r.vol1, r.vol0⟩, ?_, ?_⟩, by simpa using hge⟩
    · rw [List.mem_filter]
      exact ⟨(mem_mergedRows vol1 vol0 _).mpr ⟨h1, h2⟩, by simpa using h0⟩
    · cases r
      simp_all

/-- C1: a ticker contributes a row to the filtered result set iff it has an
entry in both snapshots with positive prior volume and
`round(recent/prior, 2) ≥ 5`; every row stores exactly the rounded ratio;
1,000,000 over 100,000 gives ratio 10 and qualifies, 400,000 over 100,000
gives ratio 4 and is excluded. -/
theorem claim_C1_spike_membership (vol1 vol0 : List (String × ℤ)) (t : String) :
    ((∃ r ∈ result5x vol1 vol0, r.ticker = t) ↔
      ∃ v1 v0 : ℤ, (t, v1) ∈ vol1 ∧ (t, v0) ∈ vol0 ∧ 0 < v0 ∧
        5 ≤ round2 (Rat.divInt v1 v0)) ∧
    (∀ r ∈ result5x vol1 vol0,
      r.mult = round2 (Rat.divInt r.vol1 r.vol0) ∧ 5 ≤ r.mult) ∧
    round2 (Rat.divInt 1000000 100000) = 10 ∧
    round2 (Rat.divInt 400000 100000) = 4 ∧
    (⟨t, 1000000, 100000, 10⟩ : SpikeRow) ∈ result5x [(t, 1000000)] [(t, 100000)] ∧
    result5x [(t, 400000)] [(t, 100000)] = [] := by
  refine ⟨?_, ?_, by decide, by decide, ?_, ?_⟩
  · constructor
    · rintro ⟨r, hr, rfl⟩
      obtain ⟨h1, h2, h0, hmult, hge⟩ := (mem_result5x vol1 vol0 r).mp hr
      exact ⟨r.vol1, r.vol0, h1, h2, h0, hmult ▸ hge⟩
    · rintro ⟨v1, v0, h1, h2, h0, hge⟩
      exact ⟨⟨t, v1, v0, round2 (Rat.divInt v1 v0)⟩,
        (mem_result5x vol1 vol0 _).mpr ⟨h1, h2, h0, rfl, hge⟩, rfl⟩
  · intro r hr
    obtain ⟨_, _, _, hmult, hge⟩ := (mem_result5x vol1 vol0 r).mp hr
    exact ⟨hmult, hge⟩
  · apply (mem_result5x _ _ _).mpr
    refine ⟨by simp, by simp, by norm_num, ?_, ?_⟩
    · show (10 : ℚ) = round2 (Rat.divInt 1000000 100000)
      decide
    · show (5 : ℚ) ≤ (10 : ℚ)
      norm_num
  · have h4 : round2 (Rat.divInt 400000 100000) = 4 := by decide
    apply List.eq_nil_iff_forall_not_mem.mpr
    intro r hr
    obtain ⟨h1, h2, h0, hmult, hge⟩ := (mem_result5x _ _ r).mp hr
    obtain ⟨-, hv1⟩ : r.ticker = t ∧ r.vol1 = 400000 := by simpa using h1
    obtain ⟨-, hv0⟩ : r.ticker = t ∧ r.vol0 = 100000 := by simpa using h2
    rw [hmult, hv1, hv0, h4] at hge
    norm_num at hge

/-- Witness for C1: the two scenario snapshots evaluated concretely — the
10x ticker is present with stored ratio 10, the 4x snapshot yields the
empty result. -/
theorem claim_C1_spike_membership_witness :
    ((⟨"A", 1000000, 100000, 10⟩ : SpikeRow).mult =
        round2 (Rat.divInt 1000000 100000) ∧
      (5 : ℚ) ≤ (⟨"A", 1000000, 100000, 10⟩ : SpikeRow).mult) ∧
    result5x [("A", 400000)] [("A", 100000)] = [] :=
  ⟨(claim_C1_spike_membership [("A", 1000000)] [("A", 100000)] "A").2.1
      ⟨"A", 1000000, 100000, 10⟩ (by decide),
   (claim_C1_spike_membership [] [] "A").2.2.2.2.2⟩

/-- C5: the ratio division is only ever evaluated on rows whose prior
volume is positive (the rows surviving the `> 0` filter, on which the
`배수` column is computed), every final row keeps a positive prior volume,
and a ticker all of whose prior-snapshot entries are 0 never appears,
whatever its recent volume. -/
theorem claim_C5_division_guard (vol1 vol0 : List (String × ℤ)) (t : String) :
    (∀ j ∈ posPrior (mergedRows vol1 vol0), 0 < j.vol0) ∧
    (∀ r ∈ result5x vol1 vol0, 0 < r.vol0) ∧
    ((∀ v0 : ℤ, (t, v0) ∈ vol0 → v0 = 0) →
      ∀ r ∈ result5x vol1 vol0, r.ticker ≠ t) := by
  refine ⟨?_, ?_, ?_⟩
  · intro j hj
    rw [posPrior, List.mem_filter] at hj
    simpa using hj.2
  · intro r hr
    exact ((mem_result5x vol1 vol0 r).mp hr).2.2.1
  · intro hz r hr ht
    obtain ⟨_, h2, h0, _, _⟩ := (mem_result5x vol1 vol0 r).mp hr
    rw [ht] at h2
    have := hz r.vol0 h2
    omega

/-- Witness for C5: ticker X with prior volume 0 and huge recent volume is
excluded. -/
theorem claim_C5_division_guard_witness :
    ∀ r ∈ result5x [("X", 1000000)] [("X", 0)], r.ticker ≠ "X" :=
  (claim_C5_division_guard [("X", 1000000)] [("X", 0)] "X").2.2
    (by intro v0 hv; simpa using hv)

/-- C6: the market-cap join never drops a surviving spike row (a row with
no cap entry is kept with cap 0), and the joined rows are sorted by
market cap descending then recent volume descending before the
truncation to 30 takes its prefix. -/
theorem claim_C6_capjoin_sort (vol1 vol0 : List (String × ℤ))
    (mcap : List (String × ℚ)) :
    (∀ r ∈ result5x vol1 vol0, ∃ c : ℚ,
      (r, c) ∈ withCap (result5x vol1 vol0) mcap ∧
      ((∀ m ∈ mcap, m.1 ≠ r.ticker) → c = 0)) ∧
    (sortedResult vol1 vol0 mcap).Perm (withCap (result5x vol1 vol0) mcap) ∧
    (sortedResult vol1 vol0 mcap).Sorted capLe ∧
    reportRows vol1 vol0 mcap = (sortedResult vol1 vol0 mcap).take 30 := by
  refine ⟨?_, List.perm_insertionSort capLe _, List.sorted_insertionSort capLe _, rfl⟩
  intro r hr
  cases hm : mcap.filter (fun m => m.1 == r.ticker) with
  | nil =>
    refine ⟨0, ?_, fun _ => rfl⟩
    rw [withCap, List.mem_flatMap]
    exact ⟨r, hr, by rw [hm]; simp⟩
  | cons m ms =>
    refine ⟨m.2, ?_, ?_⟩
    · rw [withCap, List.mem_flatMap]
      refine ⟨r, hr, by rw [hm]; simp⟩
    · intro hnone
      exfalso
      have hmem : m ∈ mcap.filter (fun m => m.1 == r.ticker) := by
        rw [hm]; simp
      rw [List.mem_filter] at hmem
      exact hnone m hmem.1 (by simpa using hmem.2)

/-- Witness for C6: a spike row with no cap entry is kept with cap 0 in a
concrete run. -/
theorem claim_C6_capjoin_sort_witness :
    ∃ c : ℚ, ((⟨"A", 1000, 100, 10⟩ : SpikeRow), c) ∈
        withCap (result5x [("A", 1000)] [("A", 100)]) [("B", 7)] ∧
      ((∀ m ∈ [(("B" : String), (7 : ℚ))], m.1 ≠ "A") → c = 0) :=
  (claim_C6_capjoin_sort [("A", 1000)] [("A", 100)] [("B", 7)]).1
    ⟨"A", 1000, 100, 10⟩ (by decide)

/-! ## Snapshot fetching (C7) -/

/-- Counterexample to C7 as stated: a source row whose volume parses as
the number `-1` is kept in the snapshot with the negative value `-1`;
nothing coerces parsed values to be non-negative. -/
theorem claim_C7_counterexample :
    get_volume_by_market ⟨["거래량"], [("X", [some (((-1 : ℤ) : ℚ))])]⟩ =
      [("X", -1)] ∧ ¬ (0 : ℤ) ≤ -1 := by
  decide

/-- C7 amended: the snapshot contains exactly those source rows whose
volume cell parses as a number, each value coerced to an integer by
truncation toward zero (negative parsed values are kept negative);
a row with an unparsable cell is absent (never defaulted to 0); an empty
response or a response with no identifiable volume-like column yields an
empty snapshot, and the (total) function raises nothing. -/
theorem claim_C7_snapshot_parsing (tbl : RawTable) :
    (tbl.rows = [] → get_volume_by_market tbl = []) ∧
    (findVolCol tbl.cols = none → get_volume_by_market tbl = []) ∧
    (∀ vc : String, findVolCol tbl.cols = some vc →
      ∀ t : String, ∀ v : ℤ,
        ((t, v) ∈ get_volume_by_market tbl ↔
          ∃ cells : List (Option ℚ), (t, cells) ∈ tbl.rows ∧
            ∃ q : ℚ, cells.getD (volIdx tbl.cols vc) none = some q ∧
              v = ratTrunc q)) := by
  refine ⟨?_, ?_, ?_⟩
  · intro h
    unfold get_volume_by_market
    rw [if_pos (by rw [h]; rfl)]
  · intro h
    unfold get_volume_by_market
    by_cases hr : tbl.rows.length = 0
    · rw [if_pos hr]
    · rw [if_neg hr, h]
  · intro vc hvc t v
    by_cases hr : tbl.rows.length = 0
    · have hnil : tbl.rows = [] := List.length_eq_zero.mp hr
      unfold get_volume_by_market
      rw [if_pos hr]
      simp [hnil]
    · unfold get_volume_by_market
      rw [if_neg hr, hvc, List.mem_filterMap]
      constructor
      · rintro ⟨⟨t', cells⟩, hmem, hf⟩
        rw [Option.map_eq_some'] at hf
        obtain ⟨q, hq, heq⟩ := hf
        injection heq with h1 h2
        subst h1
        subst h2
        exact ⟨cells, hmem, q, hq, rfl⟩
      · rintro ⟨cells, hmem, q, hq, rfl⟩
        exact ⟨(t, cells), hmem, by rw [hq]; rfl⟩

/-- Witness for C7: on a concrete response, the parsable row (value 7/2,
truncated to 3) is present and characterized by the membership law. -/
theorem claim_C7_snapshot_parsing_witness :
    ("Z", (3 : ℤ)) ∈ get_volume_by_market
        ⟨["거래량"], [("X", [none]), ("Z", [some (Rat.divInt 7 2)])]⟩ ↔
      ∃ cells : List (Option ℚ),
        (("Z" : String), cells) ∈
          [(("X" : String), [(none : Option ℚ)]),
           (("Z" : String), [some (Rat.divInt 7 2)])] ∧
        ∃ q : ℚ, cells.getD (volIdx ["거래량"] "거래량") none = some q ∧
          (3 : ℤ) = ratTrunc q :=
  (claim_C7_snapshot_parsing
      ⟨["거래량"], [("X", [none]), ("Z", [some (Rat.divInt 7 2)])]⟩).2.2
    "거래량" (by decide) "Z" 3

/-! ## Empty-report rendering (C8) -/

theorem result5x_nil_reportRows (vol1 vol0 : List (String × ℤ))
    (mcap : List (String × ℚ)) (h : result5x vol1 vol0 = []) :
    reportRows vol1 vol0 mcap = [] := by
  unfold reportRows sortedResult
  rw [h]
  rfl

/-- C8: an empty filtered result — from an empty inner join or from every
ratio falling below the threshold — renders the header followed by the
single explicit `해당 없음.` (no matches) line; the message is never
empty, and report building is a total function (no error path). -/
theorem claim_C8_empty_report (d1s d0s : String) (vol1 vol0 : List (String × ℤ))
    (mcap : List (String × ℚ)) (nameOf : String → String) :
    (mergedRows vol1 vol0 = [] →
      buildMsg d1s d0s vol1 vol0 mcap nameOf =
        headerStr d1s d0s ++ "\n해당 없음.") ∧
    ((∀ r ∈ withMult (posPrior (mergedRows vol1 vol0)), r.mult < 5) →
      buildMsg d1s d0s vol1 vol0 mcap nameOf =
        headerStr d1s d0s ++ "\n해당 없음.") ∧
    (result5x vol1 vol0 = [] →
      buildMsg d1s d0s vol1 vol0 mcap nameOf =
        headerStr d1s d0s ++ "\n해당 없음.") ∧
    buildMsg d1s d0s vol1 vol0 mcap nameOf ≠ "" := by
  have hempty : result5x vol1 vol0 = [] →
      buildMsg d1s d0s vol1 vol0 mcap nameOf =
        headerStr d1s d0s ++ "\n해당 없음." := by
    intro h
    unfold buildMsg buildMsgRows
    rw [result5x_nil_reportRows vol1 vol0 mcap h]
    rfl
  refine ⟨?_, ?_, hempty, ?_⟩
  · intro h
    apply hempty
    unfold result5x withMult posPrior
    rw [h]
    rfl
  · intro h
    apply hempty
    unfold result5x
    rw [List.filter_eq_nil_iff]
    intro r hr
    have := h r hr
    simp only [decide_eq_true_eq]
    exact not_le.mpr this
  · intro hcontra
    have h0 : (buildMsg d1s d0s vol1 vol0 mcap nameOf).length = 0 := by
      rw [hcontra]
      rfl
    have hpos : 0 < (headerStr d1s d0s).length := by
      unfold headerStr
      rw [String.length_append, String.length_append, String.length_append,
        String.length_append]
      have hlit : (0:Nat) <
          ("<b>[거래량 급증(≥5배) – 시총 상위 30개]</b>\n기준일: " : String).length := by
        decide
      omega
    simp only [buildMsg, buildMsgRows] at h0
    split at h0 <;>
      (simp only [String.length_append] at h0; omega)

/-- Witness for C8: the all-empty run renders exactly the header plus the
no-match line. -/
theorem claim_C8_empty_report_witness :
    buildMsg "2025-01-02" "2025-01-01" [] [] [] (fun _ => "") =
      headerStr "2025-01-02" "2025-01-01" ++ "\n해당 없음." :=
  (claim_C8_empty_report "2025-01-02" "2025-01-01" [] [] [] (fun _ => "")).1 rfl

/-! ## Display-width lemmas (C9) -/

theorem disp_width_append (s t : String) :
    disp_width (s ++ t) = disp_width s + disp_width t := by
  unfold disp_width
  rw [String.data_append, List.map_append, List.sum_append]

theorem disp_width_spaces (n : Nat) :
    disp_width (String.mk (List.replicate n ' ')) = n := by
  unfold disp_width
  have hw : charWidth ' ' = 1 := by decide
  simp [List.map_replicate, hw]

theorem charWidth_sum_narrow (l : List Char)
    (h : ∀ c ∈ l, east_asian_wide c = false) :
    (l.map charWidth).sum = l.length := by
  induction l with
  | nil => rfl
  | cons c cs ih =>
    simp only [List.map_cons, List.sum_cons, List.length_cons]
    rw [ih (fun x hx => h x (List.mem_cons_of_mem c hx))]
    have hc : charWidth c = 1 := by
      unfold charWidth
      rw [h c (List.mem_cons_self c cs)]
      rfl
    omega

theorem disp_width_narrow (s : String)
    (h : ∀ c ∈ s.data, east_asian_wide c = false) :
    disp_width s = s.length := by
  unfold disp_width
  rw [String.length]
  exact charWidth_sum_narrow s.data h

theorem natDigitsRevGo_narrow (fuel n : Nat) :
    ∀ c ∈ natDigitsRevGo fuel n, east_asian_wide c = false := by
  induction fuel generalizing n with
  | zero =>
    intro c hc
    simp [natDigitsRevGo] at hc
  | succ fuel ih =>
    intro c hc
    match n with
    | 0 => simp [natDigitsRevGo] at hc
    | m + 1 =>
      rw [natDigitsRevGo] at hc
      rcases List.mem_cons.mp hc with rfl | hc
      · have hd : (m + 1) % 10 < 10 := Nat.mod_lt _ (by norm_num)
        have : ∀ d : Nat, d < 10 → east_asian_wide (Char.ofNat (48 + d)) = false := by
          decide
        exact this _ hd
      · exact ih _ c hc

theorem natDigitsRev_narrow (n : Nat) :
    ∀ c ∈ natDigitsRev n, east_asian_wide c = false := by
  intro c hc
  unfold natDigitsRev at hc
  by_cases h : n = 0
  · rw [if_pos h] at hc
    simp at hc
    subst hc
    decide
  · rw [if_neg h] at hc
    exact natDigitsRevGo_narrow n n c hc

theorem group3r_mem_aux (k : Nat) :
    ∀ l : List Char, l.length ≤ k → ∀ c ∈ group3r l, c ∈ l ∨ c = ',' := by
  induction k with
  | zero =>
    intro l hl c hc
    have : l = [] := List.length_eq_zero.mp (Nat.le_zero.mp hl)
    subst this
    simp [group3r] at hc
  | succ k ih =>
    intro l hl c hc
    match l with
    | [] => simp [group3r] at hc
    | [a] => simp [group3r] at hc; simp [hc]
    | [a, b] => simp [group3r] at hc; rcases hc with rfl | rfl <;> simp
    | [a, b, c'] => simp [group3r] at hc; rcases hc with rfl | rfl | rfl <;> simp
    | a :: b :: c' :: d :: rest =>
      have hg : group3r (a :: b :: c' :: d :: rest) =
          a :: b :: c' :: ',' :: group3r (d :: rest) := rfl
      rw [hg] at hc
      rcases List.mem_cons.mp hc with rfl | hc
      · exact Or.inl (by simp)
      rcases List.mem_cons.mp hc with rfl | hc
      · exact Or.inl (by simp)
      rcases List.mem_cons.mp hc with rfl | hc
      · exact Or.inl (by simp)
      rcases List.mem_cons.mp hc with rfl | hc
      · exact Or.inr rfl
      · have hlen : (d :: rest).length ≤ k := by
          simp only [List.length_cons] at hl ⊢
          omega
        rcases ih (d :: rest) hlen c hc with h | h
        · refine Or.inl ?_
          rcases List.mem_cons.mp h with rfl | h
          · simp
          · simp [List.mem_cons_of_mem, h]
        · exact Or.inr h

theorem group3r_mem (l : List Char) : ∀ c ∈ group3r l, c ∈ l ∨ c = ',' :=
  group3r_mem_aux l.length l le_rfl

/-- Every character of a thousands-formatted integer (digits, commas and a
possible minus sign) is display-narrow. -/
theorem fmtThousands_narrow (n : ℤ) :
    ∀ c ∈ (fmtThousands n).data, east_asian_wide c = false := by
  intro c hc
  unfold fmtThousands at hc
  rw [String.data_append] at hc
  rcases List.mem_append.mp hc with hc | hc
  · by_cases h : n < 0
    · rw [if_pos h] at hc
      simp at hc
      subst hc
      decide
    · rw [if_neg h] at hc
      simp at hc
  · have hc' : c ∈ group3r (natDigitsRev n.natAbs) := by
      simpa using List.mem_reverse.mp (by simpa using hc)
    rcases group3r_mem _ c hc' with h | rfl
    · exact natDigitsRev_narrow _ c h
    · decide

/-- A data line decomposed: left part, padding, volume string. -/
theorem dataLine_width (anchor nw i : Nat) (nm vv : String)
    (hnarrow : ∀ c ∈ vv.data, east_asian_wide c = false)
    (hfit : disp_width (numField i ++ ljust_display nm nw ++
        String.mk (List.replicate gap_between ' ')) + vv.length ≤ anchor) :
    disp_width (dataLine anchor nw i nm vv) = anchor := by
  unfold dataLine
  rw [disp_width_append, disp_width_append, disp_width_spaces,
    disp_width_narrow vv hnarrow]
  set b := disp_width (numField i ++ ljust_display nm nw ++
    String.mk (List.replicate gap_between ' ')) with hb
  rw [String.length] at hfit ⊢
  omega

theorem labelLine_width (names : List String)
    (hfit : disp_width (lead_spaces ++ label_name) + disp_width label_vol ≤
      vol_anchor names) :
    disp_width (labelLine names) = vol_anchor names := by
  unfold labelLine
  rw [disp_width_append, disp_width_append, disp_width_spaces]
  omega

/-- C9: the display width of a string is the sum over its characters of 2
for East-Asian Wide/Fullwidth characters and 1 otherwise (not the
character count — the label `종목명` has 3 characters but width 6);
volume strings are all-narrow; and both the header's volume label and
each data line's volume string end exactly at the anchor column, provided
the line's left portion plus the trailing string fits within the anchor. -/
theorem claim_C9_display_alignment (names : List String) (nm vv : String)
    (i : Nat) :
    (∀ s : String,
      disp_width s = (s.data.map fun c => if east_asian_wide c then 2 else 1).sum) ∧
    disp_width "종목명" = 6 ∧ ("종목명" : String).length = 3 ∧
    (∀ n : ℤ, ∀ c ∈ (fmtThousands n).data, east_asian_wide c = false) ∧
    ((∀ c ∈ vv.data, east_asian_wide c = false) →
      disp_width (numField i ++ ljust_display nm (nameWidth names) ++
          String.mk (List.replicate gap_between ' ')) + vv.length ≤
        vol_anchor names →
      disp_width (dataLine (vol_anchor names) (nameWidth names) i nm vv) =
        vol_anchor names) ∧
    (disp_width (lead_spaces ++ label_name) + disp_width label_vol ≤
        vol_anchor names →
      disp_width (labelLine names) = vol_anchor names) := by
  refine ⟨fun s => rfl, by decide, by decide, fmtThousands_narrow, ?_, ?_⟩
  · intro hnarrow hfit
    exact dataLine_width (vol_anchor names) (nameWidth names) i nm vv hnarrow hfit
  · intro hfit
    exact labelLine_width names hfit

/-- Witness for C9: with the Korean name `삼성전자` (width 8) the anchor is
24 and both the label line and the data line for volume 1,234,567 end at
display column 24. -/
theorem claim_C9_display_alignment_witness :
    disp_width (dataLine (vol_anchor ["삼성전자"]) (nameWidth ["삼성전자"]) 1
        "삼성전자" (fmtThousands 1234567)) = vol_anchor ["삼성전자"] ∧
    disp_width (labelLine ["삼성전자"]) = vol_anchor ["삼성전자"] :=
  ⟨(claim_C9_display_alignment ["삼성전자"] "삼성전자" (fmtThousands 1234567) 1).2.2.2.2.1
      (fmtThousands_narrow 1234567) (by decide),
   (claim_C9_display_alignment ["삼성전자"] "삼성전자" (fmtThousands 1234567) 1).2.2.2.2.2
      (by decide)⟩

/-! ## Truncation (C3) -/

theorem buildMsgRows_pos (d1s d0s : String) (result : List (SpikeRow × ℚ))
    (nameOf : String → String) (h : ¬ result.length = 0) :
    buildMsgRows d1s d0s result nameOf =
      headerStr d1s d0s ++ "\n" ++
        String.intercalate "\n"
          (codeWrap (labelLine (result.map fun r => nameOf r.1.ticker)) ::
            dataLineList (vol_anchor (result.map fun r => nameOf r.1.ticker))
              (nameWidth (result.map fun r => nameOf r.1.ticker))
              (result.map fun r => nameOf r.1.ticker)
              (result.map fun r => fmtThousands r.1.vol1)) := by
  unfold buildMsgRows
  rw [if_neg h]

set_option maxRecDepth 10000 in
/-- Counterexample to C3 as stated: the 31-ticker qualifying input (one
row more than the maximum of 30) renders exactly 30 rows and its message
is byte-identical to the message for the input holding only the 30 kept
tickers, where nothing is omitted — so the report cannot contain a marker
stating the omitted count 31 - 30 = 1, as that would distinguish the two
messages. -/
theorem claim_C3_counterexample :
    (result5x vol1A vol0A).length = 31 ∧
    (result5x vol1B vol0B).length = 30 ∧
    (reportRows vol1A vol0A mcapA).length = 30 ∧
    buildMsg "2025-01-02" "2025-01-01" vol1A vol0A mcapA (fun t => t) =
      buildMsg "2025-01-02" "2025-01-01" vol1B vol0B mcapB (fun t => t) := by
  have hrows : reportRows vol1A vol0A mcapA = reportRows vol1B vol0B mcapB := by
    decide
  refine ⟨by decide, by decide, by decide, ?_⟩
  unfold buildMsg
  rw [hrows]

/-- C3 amended: when more than 30 rows survive, exactly 30 rows are
rendered and the message consists of nothing but the header, the label
line and those 30 data lines — no omission marker (and hence no omitted
count) is emitted. -/
theorem claim_C3_truncation (d1s d0s : String) (vol1 vol0 : List (String × ℤ))
    (mcap : List (String × ℚ)) (nameOf : String → String)
    (h : 30 < (sortedResult vol1 vol0 mcap).length) :
    (reportRows vol1 vol0 mcap).length = 30 ∧
    (dataLineList
        (vol_anchor ((reportRows vol1 vol0 mcap).map fun r => nameOf r.1.ticker))
        (nameWidth ((reportRows vol1 vol0 mcap).map fun r => nameOf r.1.ticker))
        ((reportRows vol1 vol0 mcap).map fun r => nameOf r.1.ticker)
        ((reportRows vol1 vol0 mcap).map fun r => fmtThousands r.1.vol1)).length
      = 30 ∧
    buildMsg d1s d0s vol1 vol0 mcap nameOf =
      headerStr d1s d0s ++ "\n" ++
        String.intercalate "\n"
          (codeWrap (labelLine
              ((reportRows vol1 vol0 mcap).map fun r => nameOf r.1.ticker)) ::
            dataLineList
              (vol_anchor ((reportRows vol1 vol0 mcap).map fun r => nameOf r.1.ticker))
              (nameWidth ((reportRows vol1 vol0 mcap).map fun r => nameOf r.1.ticker))
              ((reportRows vol1 vol0 mcap).map fun r => nameOf r.1.ticker)
              ((reportRows vol1 vol0 mcap).map fun r => fmtThousands r.1.vol1)) := by
  have hlen : (reportRows vol1 vol0 mcap).length = 30 := by
    unfold reportRows
    rw [List.length_take]
    omega
  refine ⟨hlen, ?_, ?_⟩
  · unfold dataLineList
    rw [List.length_map, List.enum_length, List.length_zip, List.length_map,
      List.length_map, hlen]
    rfl
  · exact buildMsgRows_pos d1s d0s (reportRows vol1 vol0 mcap) nameOf (by omega)

/-- Witness for C3 (amended): the 31-ticker scenario renders exactly 30
rows. -/
theorem claim_C3_truncation_witness :
    (reportRows vol1A vol0A mcapA).length = 30 :=
  (claim_C3_truncation "2025-01-02" "2025-01-01" vol1A vol0A mcapA
    (fun t => t) (by decide)).1

/-! ## Delivery chunking (C4, C10) -/

/-- Splitting `n` newline-terminated 99-character rows on the newline
yields the `n` row bodies plus a final empty piece. -/
theorem rows_splitOn (n : Nat) :
    ((List.replicate n (List.replicate 99 'a' ++ ['\n'])).flatten).splitOn '\n'
      = List.replicate n (List.replicate 99 'a') ++ [[]] := by
  induction n with
  | zero => rfl
  | succ n ih =>
    rw [List.replicate_succ, List.flatten_cons, List.append_assoc,
      List.singleton_append]
    show (List.replicate 99 'a' ++ '\n' ::
        (List.replicate n (List.replicate 99 'a' ++ ['\n'])).flatten).splitOnP
        (fun x => x == '\n') = _
    have hfirst := List.splitOnP_first (fun x => x == '\n')
      (List.replicate 99 'a')
      (by
        intro x hx
        have hx' : x = 'a' := List.eq_of_mem_replicate hx
        subst hx'
        decide)
      '\n' (by decide)
      ((List.replicate n (List.replicate 99 'a' ++ ['\n'])).flatten)
    rw [hfirst, List.replicate_succ, List.cons_append]
    congr 1

theorem fiftyRowsText_splitOn :
    fiftyRowsText.splitOn '\n' =
      List.replicate 50 (List.replicate 99 'a') ++ [[]] :=
  rows_splitOn 50

theorem fiftyRowsText_length : fiftyRowsText.length = 5000 := by
  unfold fiftyRowsText
  rw [List.length_flatten]
  simp

/-- Every index `i < n` of a block of equal rows contributes the span
`(pos + (len+1)*i, len)`. -/
theorem lineSpansGo_replicate (n : Nat) :
    ∀ pos i : Nat, i < n → ∀ l : List Char, ∀ tail : List (List Char),
      (pos + (l.length + 1) * i, l.length) ∈
        lineSpansGo pos (List.replicate n l ++ tail) := by
  induction n with
  | zero =>
    intro pos i hi
    omega
  | succ m ih =>
    intro pos i hi l tail
    rw [List.replicate_succ, List.cons_append, lineSpansGo]
    match i with
    | 0 => simp
    | i + 1 =>
      refine List.mem_cons_of_mem _ ?_
      have h := ih (pos + l.length + 1) i (by omega) l tail
      have harith : pos + l.length + 1 + (l.length + 1) * i =
          pos + (l.length + 1) * (i + 1) := by ring
      rw [harith] at h
      exact h

theorem mem_lineSpans_fifty :
    ((4000 : Nat), (99 : Nat)) ∈ lineSpans fiftyRowsText := by
  unfold lineSpans
  rw [fiftyRowsText_splitOn]
  have h := lineSpansGo_replicate 50 0 40 (by norm_num)
    (List.replicate 99 'a') [[]]
  simpa using h

/-- Counterexample to C4 as stated: the 5000-character fifty-row report is
sent as two chunks, but the split at position 4096 falls inside the row
spanning positions 4000–4098, so that row is broken across the chunk
boundary (its first and last characters are sent in different chunks). -/
theorem claim_C4_counterexample :
    fiftyRowsText.length = 5000 ∧
    TG_MAX < fiftyRowsText.length ∧
    (tg_send_chunks fiftyRowsText).length = 2 ∧
    ¬ (∀ p ∈ lineSpans fiftyRowsText, 0 < p.2 → rowUnbroken p.1 p.2) := by
  have hlen : fiftyRowsText.length = 5000 := fiftyRowsText_length
  have hchunks : tg_send_chunks fiftyRowsText = tgLoop fiftyRowsText := by
    unfold tg_send_chunks
    rw [if_neg (by rw [hlen]; decide)]
  refine ⟨hlen, by rw [hlen]; decide, ?_, ?_⟩
  · rw [hchunks]
    exact tgLoop_length_two fiftyRowsText (by rw [hlen]; decide)
      (by rw [hlen]; decide)
  · intro hall
    have := hall (4000, 99) mem_lineSpans_fifty (by norm_num)
    revert this
    decide

/-- C4 amended: an over-long text is split into the consecutive
`TG_MAX`-sized slices — every chunk is non-empty and at most 4096
characters, their concatenation is the original text, and a text of up to
8192 characters (such as the 5000-character scenario) gives exactly two
chunks; but the boundaries are fixed character positions, so a split may
fall in the middle of a report row. -/
theorem claim_C4_chunk_split (text : List Char) (h : TG_MAX < text.length) :
    (∀ c ∈ tg_send_chunks text, c ≠ [] ∧ c.length ≤ TG_MAX) ∧
    (tg_send_chunks text).flatten = text ∧
    (text.length ≤ 2 * TG_MAX → (tg_send_chunks text).length = 2) := by
  have hchunks : tg_send_chunks text = tgLoop text := by
    unfold tg_send_chunks
    rw [if_neg (by omega)]
  rw [hchunks]
  exact ⟨tgLoop_chunk_bounds text, tgLoop_flatten text,
    fun h2 => tgLoop_length_two text h h2⟩

/-- Witness for C4 (amended): the 5000-character report is sent as exactly
two chunks that reassemble to the original text. -/
theorem claim_C4_chunk_split_witness :
    (tg_send_chunks fiftyRowsText).flatten = fiftyRowsText ∧
    (tg_send_chunks fiftyRowsText).length = 2 :=
  ⟨(claim_C4_chunk_split fiftyRowsText
      (by rw [fiftyRowsText_length]; decide)).2.1,
   (claim_C4_chunk_split fiftyRowsText
      (by rw [fiftyRowsText_length]; decide)).2.2
     (by rw [fiftyRowsText_length]; decide)⟩

/-- C10: for an over-long text the sent chunks are precisely the
consecutive slices `text[0:4096]`, `text[4096:8192]`, …: the `k`-th chunk
equals `(text.drop (4096*k)).take 4096`, every chunk is non-empty and at
most 4096 characters, and the concatenation of the chunks in send order
is exactly the original text. -/
theorem claim_C10_consecutive_slices (text : List Char) (h : TG_MAX < text.length) :
    (∀ k : Nat, k < (tg_send_chunks text).length →
      (tg_send_chunks text)[k]? =
        some ((text.drop (TG_MAX * k)).take TG_MAX)) ∧
    (∀ c ∈ tg_send_chunks text, c ≠ [] ∧ c.length ≤ TG_MAX) ∧
    (tg_send_chunks text).flatten = text := by
  have hchunks : tg_send_chunks text = tgLoop text := by
    unfold tg_send_chunks
    rw [if_neg (by omega)]
  rw [hchunks]
  exact ⟨fun k hk => tgLoop_getElem text k hk, tgLoop_chunk_bounds text,
    tgLoop_flatten text⟩

/-- Witness for C10: a concrete 4097-character text reassembles from its
chunks, and its first chunk is the 4096-character prefix slice. -/
theorem claim_C10_consecutive_slices_witness :
    (tg_send_chunks (List.replicate 4097 'a')).flatten = List.replicate 4097 'a' ∧
    (tg_send_chunks (List.replicate 4097 'a'))[0]? =
      some (((List.replicate 4097 'a').drop (TG_MAX * 0)).take TG_MAX) :=
  ⟨(claim_C10_consecutive_slices (List.replicate 4097 'a')
      (by rw [List.length_replicate]; decide)).2.2,
   (claim_C10_consecutive_slices (List.replicate 4097 'a')
      (by rw [List.length_replicate]; decide)).1 0
     (by
      have heq : tg_send_chunks (List.replicate 4097 'a') =
          tgLoop (List.replicate 4097 'a') := by
        unfold tg_send_chunks
        rw [if_neg (by rw [List.length_replicate]; decide)]
      have h2 : (tg_send_chunks (List.replicate 4097 'a')).length = 2 := by
        rw [heq]
        exact tgLoop_length_two _ (by rw [List.length_replicate]; decide)
          (by rw [List.length_replicate]; decide)
      omega)⟩

end Daily
